import Mathlib

/-!
# Verification of the real-time presence / event-delivery core

Shallow embedding of `SocketService` (backend socket service: connection
registry `userSockets : Map<string, Set<string>>`, room membership, and
outbound event emission) together with the Socket.IO runtime behaviour it
relies on (room join/leave, automatic leave-all-rooms on disconnect,
`socket.to(room)` excluding the sender).

Conventions of the embedding:
* JS `Map` becomes an association list `List (κ × α)`; `Map.get` reads the
  first matching entry, `Map.set` replaces it, `Map.delete` removes it.
* JS `Set` (insertion-ordered, duplicate-free) becomes a `List` kept
  duplicate-free: `add` appends when absent, `delete` is `List.erase`.
* Room names in the source are the strings `user:${userId}`,
  `post:${postId}` and `conversation:${conversationId}`; the three prefixes
  are distinct and each is injectively extended by the id, so rooms are
  modelled by the isomorphic inductive type `Room`.
* Every emission is logged as an `Emit` whose `targets` field is the list of
  socket ids the emission resolves to at the moment it happens:
  `io.emit` resolves to all connected sockets, `io.to(room).emit` to the
  members of the room, `socket.to(room).emit` to the members minus the
  sending socket.
* `new Date()` timestamps become the `now : Nat` field of the state.
-/

/-- A connected socket, as seen by `handleConnection`: the transport-level
socket id plus the `userId`/`username` stamped on it by `authenticateSocket`. -/
structure SocketInfo where
  sid : String
  userId : String
  username : String
deriving DecidableEq, Repr

/-- Room names used by the service: `user:${userId}`, `post:${postId}`,
`conversation:${conversationId}`.  The string prefixes are pairwise distinct
and the id extends them injectively, so the inductive type is isomorphic to
the set of room-name strings the service ever uses. -/
inductive Room where
  | user (userId : String)
  | post (postId : String)
  | conversation (conversationId : String)
deriving DecidableEq, Repr

/-- Payloads of the events the service emits.  `raw` stands for the opaque
JSON blobs (`notification`, `message`) that pass through unchanged. -/
inductive Payload where
  | status (userId : String) (isOnline : Bool) (timestamp : Nat)
  | typing (userId : String) (username : String)
  | stopTyping (userId : String)
  | msgRead (conversationId : String) (readBy : String)
  | raw (data : Nat)
deriving DecidableEq, Repr

/-- One logged emission: the socket ids it resolves to, the event name on
the wire, and the payload. -/
structure Emit where
  targets : List String
  event : String
  payload : Payload
deriving DecidableEq, Repr

/-- The whole server state: Socket.IO's connected-socket set and room table,
plus the service's own `userSockets` registry, plus the emission log. -/
structure ServerState where
  sockets : List SocketInfo
  userSockets : List (String × List String)
  rooms : List (Room × List String)
  log : List Emit
  now : Nat
deriving DecidableEq, Repr

/-- `Map.get` / `Map.has`: first entry with the given key. -/
def mapGet {κ α : Type} [DecidableEq κ] (m : List (κ × α)) (k : κ) : Option α :=
  match m with
  | [] => none
  | (k', v) :: rest => if k' = k then some v else mapGet rest k

/-- `Map.set`: replace the entry for the key, or append a fresh one. -/
def mapSet {κ α : Type} [DecidableEq κ] (m : List (κ × α)) (k : κ) (v : α) : List (κ × α) :=
  match m with
  | [] => [(k, v)]
  | (k', v') :: rest => if k' = k then (k, v) :: rest else (k', v') :: mapSet rest k v

/-- `Map.delete`: drop the entry for the key. -/
def mapDelete {κ α : Type} [DecidableEq κ] (m : List (κ × α)) (k : κ) : List (κ × α) :=
  match m with
  | [] => []
  | (k', v') :: rest => if k' = k then rest else (k', v') :: mapDelete rest k

/-- `Set.add` on a duplicate-free insertion-ordered list. -/
def setAdd {α : Type} [DecidableEq α] (s : List α) (x : α) : List α :=
  if x ∈ s then s else s ++ [x]

/-- All connected socket ids (`io.emit` broadcast scope). -/
def connectedSids (st : ServerState) : List String :=
  st.sockets.map SocketInfo.sid

/-- The socket a handler closure belongs to. -/
def findSocket (st : ServerState) (sid : String) : Option SocketInfo :=
  st.sockets.find? (fun s => decide (s.sid = sid))

/-- Members of a room; a room that does not exist has no members. -/
def roomMembers (st : ServerState) (r : Room) : List String :=
  (mapGet st.rooms r).getD []

/-- The registry's connection set for a user (empty when the key is absent). -/
def regSet (st : ServerState) (u : String) : List String :=
  (mapGet st.userSockets u).getD []

/-- Socket.IO `socket.join(room)`: create the room if needed, add the socket. -/
def socketJoin (st : ServerState) (sid : String) (r : Room) : ServerState :=
  { st with rooms := mapSet st.rooms r (setAdd (roomMembers st r) sid) }

/-- Socket.IO `socket.leave(room)`: remove the socket; an emptied room is
dropped from the table (a room with no members does not exist). -/
def socketLeave (st : ServerState) (sid : String) (r : Room) : ServerState :=
  match mapGet st.rooms r with
  | none => st
  | some mem =>
    let mem' := mem.erase sid
    if mem' = [] then { st with rooms := mapDelete st.rooms r }
    else { st with rooms := mapSet st.rooms r mem' }

/-- Socket.IO runtime: on disconnect the socket leaves every room it is in;
emptied rooms are dropped. -/
def leaveAllRooms (st : ServerState) (sid : String) : ServerState :=
  { st with
    rooms := (st.rooms.map (fun p => (p.1, p.2.erase sid))).filter
      (fun p => !p.2.isEmpty) }

/-- `io.emit(event, payload)`: broadcast to every connected socket. -/
def ioEmit (st : ServerState) (event : String) (payload : Payload) : ServerState :=
  { st with log := st.log ++ [⟨connectedSids st, event, payload⟩] }

/-- `io.to(room).emit(event, payload)`: push to the members of the room. -/
def ioToEmit (st : ServerState) (r : Room) (event : String) (payload : Payload) :
    ServerState :=
  { st with log := st.log ++ [⟨roomMembers st r, event, payload⟩] }

/-- `socket.to(room).emit(event, payload)`: push to the members of the room
other than the sending socket itself. -/
def socketToEmit (st : ServerState) (sender : String) (r : Room) (event : String)
    (payload : Payload) : ServerState :=
  { st with log := st.log ++ [⟨(roomMembers st r).erase sender, event, payload⟩] }

/-- `broadcastUserStatus`: `io.emit("user:status", {userId, isOnline,
timestamp: new Date()})`. -/
def broadcastUserStatus (st : ServerState) (userId : String) (isOnline : Bool) :
    ServerState :=
  ioEmit st "user:status" (Payload.status userId isOnline st.now)

/-- `handleConnection` body: ensure the user has a socket set, add the socket
id, join the personal room `user:${userId}`, broadcast online status.
(The event handlers it registers are modelled as the separate operations
below.) -/
def handleConnection (st : ServerState) (sid userId : String) : ServerState :=
  let m0 := if (mapGet st.userSockets userId).isSome then st.userSockets
            else mapSet st.userSockets userId []
  let m1 := mapSet m0 userId (setAdd ((mapGet m0 userId).getD []) sid)
  let st1 := { st with userSockets := m1 }
  let st2 := socketJoin st1 sid (Room.user userId)
  broadcastUserStatus st2 userId true

/-- A new authenticated connection: the Socket.IO runtime registers the
socket as connected, then the service's `handleConnection` runs. -/
def admitConn (st : ServerState) (sid userId username : String) : ServerState :=
  handleConnection
    { st with sockets := st.sockets ++ [⟨sid, userId, username⟩] } sid userId

/-- `handleDisconnect` body: remove the socket id from the user's set; when
the set empties, delete the registry entry and broadcast offline status. -/
def handleDisconnect (st : ServerState) (sid userId : String) : ServerState :=
  match mapGet st.userSockets userId with
  | none => st
  | some s =>
    let s' := s.erase sid
    if s' = [] then
      broadcastUserStatus
        { st with userSockets := mapDelete st.userSockets userId } userId false
    else { st with userSockets := mapSet st.userSockets userId s' }

/-- A transport disconnect of a connected socket: the Socket.IO runtime
removes the socket from every room and from the connected set, then fires
the `disconnect` event, which runs `handleDisconnect` with the `userId`
captured by the connection handler's closure.  A disconnect for a socket id
that is not connected does nothing. -/
def evict (st : ServerState) (sid : String) : ServerState :=
  match findSocket st sid with
  | none => st
  | some sock =>
    let st1 := leaveAllRooms st sid
    let st2 := { st1 with sockets := st1.sockets.filter (fun s => !decide (s.sid = sid)) }
    handleDisconnect st2 sid sock.userId

/-- `isUserOnline`: `userSockets.has(userId)`. -/
def isUserOnline (st : ServerState) (userId : String) : Bool :=
  (mapGet st.userSockets userId).isSome

/-- `getOnlineUserIds`: the registry's keys. -/
def getOnlineUserIds (st : ServerState) : List String :=
  st.userSockets.map Prod.fst

/-- The `post:join` handler: `socket.join("post:" + postId)` (only a
connected socket has handlers). -/
def postJoinOp (st : ServerState) (sid postId : String) : ServerState :=
  if (findSocket st sid).isSome then socketJoin st sid (Room.post postId) else st

/-- The `post:leave` handler: `socket.leave("post:" + postId)`. -/
def postLeaveOp (st : ServerState) (sid postId : String) : ServerState :=
  if (findSocket st sid).isSome then socketLeave st sid (Room.post postId) else st

/-- The `typing:start` handler: `socket.to("post:" + postId).emit
("user:typing", {userId, username})`. -/
def typingStartOp (st : ServerState) (sid postId : String) : ServerState :=
  match findSocket st sid with
  | none => st
  | some sock =>
    socketToEmit st sid (Room.post postId) "user:typing"
      (Payload.typing sock.userId sock.username)

/-- The `typing:stop` handler: `socket.to("post:" + postId).emit
("user:stop-typing", {userId})`. -/
def typingStopOp (st : ServerState) (sid postId : String) : ServerState :=
  match findSocket st sid with
  | none => st
  | some sock =>
    socketToEmit st sid (Room.post postId) "user:stop-typing"
      (Payload.stopTyping sock.userId)

/-- `sendNotificationToUser`: `io.to("user:" + userId).emit("notification", n)`. -/
def sendNotificationToUser (st : ServerState) (userId : String) (n : Payload) :
    ServerState :=
  ioToEmit st (Room.user userId) "notification" n

/-- `sendMessageToUser`: `io.to("user:" + userId).emit("message:new", m)`. -/
def sendMessageToUser (st : ServerState) (userId : String) (m : Payload) :
    ServerState :=
  ioToEmit st (Room.user userId) "message:new" m

/-- `sendMessageReadNotification`: `io.to("user:" + userId).emit
("message:read", {conversationId, readBy})`. -/
def sendMessageReadNotification (st : ServerState) (userId conversationId readBy : String) :
    ServerState :=
  ioToEmit st (Room.user userId) "message:read" (Payload.msgRead conversationId readBy)

/-- `emitPostUpdate`: `io.to("post:" + postId).emit(event, data)`. -/
def emitPostUpdate (st : ServerState) (postId event : String) (data : Payload) :
    ServerState :=
  ioToEmit st (Room.post postId) event data

/-- The operations the outside world can drive the service with. -/
inductive Op where
  | admitConn (sid userId username : String)
  | evict (sid : String)
  | joinPost (sid postId : String)
  | leavePost (sid postId : String)
  | typingStart (sid postId : String)
  | typingStop (sid postId : String)
  | notify (userId : String) (n : Payload)
  | message (userId : String) (m : Payload)
  | messageRead (userId conversationId readBy : String)
  | postUpdate (postId event : String) (data : Payload)
deriving DecidableEq, Repr

/-- One step of the service. -/
def step (st : ServerState) : Op → ServerState
  | Op.admitConn sid userId username => admitConn st sid userId username
  | Op.evict sid => evict st sid
  | Op.joinPost sid postId => postJoinOp st sid postId
  | Op.leavePost sid postId => postLeaveOp st sid postId
  | Op.typingStart sid postId => typingStartOp st sid postId
  | Op.typingStop sid postId => typingStopOp st sid postId
  | Op.notify userId n => sendNotificationToUser st userId n
  | Op.message userId m => sendMessageToUser st userId m
  | Op.messageRead u c r => sendMessageReadNotification st u c r
  | Op.postUpdate p e d => emitPostUpdate st p e d

/-- Run a sequence of operations. -/
def run (st : ServerState) (ops : List Op) : ServerState :=
  ops.foldl step st

/-- The freshly initialized service: no sockets, empty registry, no rooms. -/
def initState : ServerState := ⟨[], [], [], [], 0⟩

/-- Transport validity: the transport layer never reuses a currently
connected socket id for a new connection (Socket.IO socket ids are unique
per live session, and a reconnect always gets a fresh id). -/
def validFrom (st : ServerState) : List Op → Bool
  | [] => true
  | op :: rest =>
    (match op with
     | Op.admitConn sid _ _ => !decide (sid ∈ connectedSids st)
     | _ => true) && validFrom (step st op) rest

/-- The presence events for user `u` with online flag `b` in the log. -/
def presenceEvents (st : ServerState) (u : String) (b : Bool) : List Emit :=
  st.log.filter (fun e =>
    match e.payload with
    | Payload.status u' b' _ =>
        decide (e.event = "user:status") && decide (u' = u) && decide (b' = b)
    | _ => false)

/-- The connection ids admitted for user `u` by an operation sequence and not
evicted since, read off the sequence itself (not the registry). -/
def liveConnsOf (u : String) : List Op → List String → List String
  | [], acc => acc
  | Op.admitConn sid u' _ :: rest, acc =>
      liveConnsOf u rest (if u' = u then acc ++ [sid] else acc)
  | Op.evict sid :: rest, acc => liveConnsOf u rest (acc.erase sid)
  | _ :: rest, acc => liveConnsOf u rest acc


/-! ## Association-list map lemmas -/

theorem mapGet_mapSet_self {κ α : Type} [DecidableEq κ] (m : List (κ × α)) (k : κ) (v : α) :
    mapGet (mapSet m k v) k = some v := by
  induction m with
  | nil => simp [mapSet, mapGet]
  | cons p rest ih =>
    obtain ⟨k0, v0⟩ := p
    by_cases h : k0 = k
    · subst h; simp [mapSet, mapGet]
    · simp [mapSet, mapGet, h, ih]

theorem mapGet_mapSet_ne {κ α : Type} [DecidableEq κ] (m : List (κ × α)) (k k' : κ) (v : α)
    (h : k' ≠ k) : mapGet (mapSet m k v) k' = mapGet m k' := by
  induction m with
  | nil => simp [mapSet, mapGet, Ne.symm h]
  | cons p rest ih =>
    obtain ⟨k0, v0⟩ := p
    by_cases h0 : k0 = k
    · subst h0
      simp [mapSet, mapGet, Ne.symm h]
    · by_cases h1 : k0 = k'
      · subst h1; simp [mapSet, mapGet, h0]
      · simp [mapSet, mapGet, h0, h1, ih]

theorem mapGet_mapDelete_ne {κ α : Type} [DecidableEq κ] (m : List (κ × α)) (k k' : κ)
    (h : k' ≠ k) : mapGet (mapDelete m k) k' = mapGet m k' := by
  induction m with
  | nil => simp [mapDelete]
  | cons p rest ih =>
    obtain ⟨k0, v0⟩ := p
    by_cases h0 : k0 = k
    · subst h0
      simp [mapDelete, mapGet, Ne.symm h]
    · by_cases h1 : k0 = k'
      · subst h1; simp [mapDelete, mapGet, h0]
      · simp [mapDelete, mapGet, h0, h1, ih]

theorem mapGet_mem {κ α : Type} [DecidableEq κ] {m : List (κ × α)} {k : κ} {v : α}
    (h : mapGet m k = some v) : (k, v) ∈ m := by
  induction m with
  | nil => simp [mapGet] at h
  | cons p rest ih =>
    obtain ⟨k0, v0⟩ := p
    by_cases h0 : k0 = k
    · subst h0
      simp [mapGet] at h
      simp [h]
    · simp [mapGet, h0] at h
      exact List.mem_cons_of_mem _ (ih h)

theorem mapGet_isSome_iff {κ α : Type} [DecidableEq κ] (m : List (κ × α)) (k : κ) :
    (mapGet m k).isSome = true ↔ k ∈ m.map Prod.fst := by
  induction m with
  | nil => simp [mapGet]
  | cons p rest ih =>
    obtain ⟨k0, v0⟩ := p
    by_cases h0 : k0 = k
    · subst h0; simp [mapGet]
    · simp only [mapGet, if_neg h0, List.map_cons, List.mem_cons]
      rw [ih]
      constructor
      · exact fun hh => Or.inr hh
      · rintro (hh | hh)
        · exact absurd hh.symm h0
        · exact hh

theorem mapGet_eq_none_of_not_mem_keys {κ α : Type} [DecidableEq κ] {m : List (κ × α)} {k : κ}
    (h : k ∉ m.map Prod.fst) : mapGet m k = none := by
  induction m with
  | nil => simp [mapGet]
  | cons p rest ih =>
    obtain ⟨k0, v0⟩ := p
    simp only [List.map_cons, List.mem_cons] at h
    push_neg at h
    simp only [mapGet, if_neg (fun hh : k0 = k => h.1 hh.symm)]
    exact ih h.2

theorem mapSet_same {κ α : Type} [DecidableEq κ] {m : List (κ × α)} {k : κ} {v : α}
    (h : mapGet m k = some v) : mapSet m k v = m := by
  induction m with
  | nil => simp [mapGet] at h
  | cons p rest ih =>
    obtain ⟨k0, v0⟩ := p
    by_cases h0 : k0 = k
    · subst h0
      simp [mapGet] at h
      simp [mapSet, h]
    · simp [mapGet, h0] at h
      simp [mapSet, h0, ih h]

theorem mapSet_mapSet {κ α : Type} [DecidableEq κ] (m : List (κ × α)) (k : κ) (v v' : α) :
    mapSet (mapSet m k v) k v' = mapSet m k v' := by
  induction m with
  | nil => simp [mapSet]
  | cons p rest ih =>
    obtain ⟨k0, v0⟩ := p
    by_cases h0 : k0 = k
    · subst h0; simp [mapSet]
    · simp [mapSet, h0, ih]

theorem keys_mapSet_mem {κ α : Type} [DecidableEq κ] (m : List (κ × α)) (k : κ) (v : α)
    (h : k ∈ m.map Prod.fst) : (mapSet m k v).map Prod.fst = m.map Prod.fst := by
  induction m with
  | nil => simp at h
  | cons p rest ih =>
    obtain ⟨k0, v0⟩ := p
    by_cases h0 : k0 = k
    · subst h0; simp [mapSet]
    · simp only [List.map_cons, List.mem_cons] at h
      rcases h with h | h
      · exact absurd h.symm h0
      · simp [mapSet, h0, ih h]

theorem keys_mapSet_not_mem {κ α : Type} [DecidableEq κ] (m : List (κ × α)) (k : κ) (v : α)
    (h : k ∉ m.map Prod.fst) : (mapSet m k v).map Prod.fst = m.map Prod.fst ++ [k] := by
  induction m with
  | nil => simp [mapSet]
  | cons p rest ih =>
    obtain ⟨k0, v0⟩ := p
    simp only [List.map_cons, List.mem_cons] at h
    push_neg at h
    simp only [mapSet, if_neg (Ne.symm h.1), List.map_cons, List.cons_append, ih h.2]

theorem keys_mapDelete_sublist {κ α : Type} [DecidableEq κ] (m : List (κ × α)) (k : κ) :
    ((mapDelete m k).map Prod.fst).Sublist (m.map Prod.fst) := by
  induction m with
  | nil => simp [mapDelete]
  | cons p rest ih =>
    obtain ⟨k0, v0⟩ := p
    by_cases h0 : k0 = k
    · subst h0
      simp only [mapDelete, if_pos rfl, List.map_cons]
      exact List.Sublist.cons _ (List.Sublist.refl _)
    · simpa only [mapDelete, if_neg h0, List.map_cons] using ih.cons₂ k0

theorem mapGet_mapDelete_self {κ α : Type} [DecidableEq κ] {m : List (κ × α)} {k : κ}
    (hnd : (m.map Prod.fst).Nodup) : mapGet (mapDelete m k) k = none := by
  induction m with
  | nil => simp [mapDelete, mapGet]
  | cons p rest ih =>
    obtain ⟨k0, v0⟩ := p
    simp only [List.map_cons, List.nodup_cons] at hnd
    by_cases h0 : k0 = k
    · subst h0
      simpa only [mapDelete, if_pos rfl] using mapGet_eq_none_of_not_mem_keys hnd.1
    · simp only [mapDelete, if_neg h0, mapGet]
      exact ih hnd.2

theorem mem_mapSet_strong {κ α : Type} [DecidableEq κ] {m : List (κ × α)} {k : κ} {v : α}
    {p : κ × α} (hnd : (m.map Prod.fst).Nodup) (hp : p ∈ mapSet m k v) :
    p = (k, v) ∨ (p ∈ m ∧ p.1 ≠ k) := by
  induction m with
  | nil => simp [mapSet] at hp; simp [hp]
  | cons q rest ih =>
    obtain ⟨k0, v0⟩ := q
    simp only [List.map_cons, List.nodup_cons] at hnd
    by_cases h0 : k0 = k
    · subst h0
      simp only [mapSet, if_true, eq_self_iff_true, List.mem_cons] at hp
      rcases hp with hp | hp
      · exact Or.inl hp
      · refine Or.inr ⟨List.mem_cons_of_mem _ hp, ?_⟩
        intro hk
        have hmem : p.1 ∈ rest.map Prod.fst := List.mem_map_of_mem Prod.fst hp
        rw [hk] at hmem
        exact hnd.1 hmem
    · simp only [mapSet, if_neg h0, List.mem_cons] at hp
      rcases hp with hp | hp
      · exact Or.inr ⟨by simp [hp], by simp [hp, h0]⟩
      · rcases ih hnd.2 hp with h | h
        · exact Or.inl h
        · exact Or.inr ⟨List.mem_cons_of_mem _ h.1, h.2⟩

theorem mem_mapDelete {κ α : Type} [DecidableEq κ] {m : List (κ × α)} {k : κ} {p : κ × α}
    (hp : p ∈ mapDelete m k) : p ∈ m := by
  induction m with
  | nil => simp [mapDelete] at hp
  | cons q rest ih =>
    obtain ⟨k0, v0⟩ := q
    by_cases h0 : k0 = k
    · subst h0
      simp only [mapDelete, if_pos rfl] at hp
      exact List.mem_cons_of_mem _ hp
    · simp only [mapDelete, if_neg h0, List.mem_cons] at hp
      rcases hp with hp | hp
      · simp [hp]
      · exact List.mem_cons_of_mem _ (ih hp)

theorem mem_mapDelete_strong {κ α : Type} [DecidableEq κ] {m : List (κ × α)} {k : κ}
    {p : κ × α} (hnd : (m.map Prod.fst).Nodup) (hp : p ∈ mapDelete m k) :
    p ∈ m ∧ p.1 ≠ k := by
  induction m with
  | nil => simp [mapDelete] at hp
  | cons q rest ih =>
    obtain ⟨k0, v0⟩ := q
    simp only [List.map_cons, List.nodup_cons] at hnd
    by_cases h0 : k0 = k
    · subst h0
      simp only [mapDelete, if_pos rfl] at hp
      refine ⟨List.mem_cons_of_mem _ hp, ?_⟩
      intro hk
      have hmem : p.1 ∈ rest.map Prod.fst := List.mem_map_of_mem Prod.fst hp
      rw [hk] at hmem
      exact hnd.1 hmem
    · simp only [mapDelete, if_neg h0, List.mem_cons] at hp
      rcases hp with hp | hp
      · exact ⟨by simp [hp], by simp [hp, h0]⟩
      · obtain ⟨h1, h2⟩ := ih hnd.2 hp
        exact ⟨List.mem_cons_of_mem _ h1, h2⟩

theorem setAdd_nodup {α : Type} [DecidableEq α] {s : List α} (h : s.Nodup) (x : α) :
    (setAdd s x).Nodup := by
  unfold setAdd
  split
  · exact h
  · next hx => simp [List.nodup_append, h, hx]

theorem mem_setAdd {α : Type} [DecidableEq α] (s : List α) (x y : α) :
    y ∈ setAdd s x ↔ y ∈ s ∨ y = x := by
  unfold setAdd
  split
  · next hx =>
    constructor
    · exact Or.inl
    · rintro (h | rfl) <;> assumption
  · simp

theorem setAdd_ne_nil {α : Type} [DecidableEq α] (s : List α) (x : α) : setAdd s x ≠ [] := by
  unfold setAdd
  split
  · next hx => intro h; subst h; simp at hx
  · simp

/-! ## Characterizations of the service operations -/

theorem mem_mapSet {κ α : Type} [DecidableEq κ] {m : List (κ × α)} {k : κ} {v : α}
    {p : κ × α} (hp : p ∈ mapSet m k v) : p = (k, v) ∨ p ∈ m := by
  induction m with
  | nil => simp [mapSet] at hp; simp [hp]
  | cons q rest ih =>
    obtain ⟨k0, v0⟩ := q
    by_cases h0 : k0 = k
    · subst h0
      simp only [mapSet, if_true, eq_self_iff_true, List.mem_cons] at hp
      rcases hp with hp | hp
      · exact Or.inl hp
      · exact Or.inr (List.mem_cons_of_mem _ hp)
    · simp only [mapSet, if_neg h0, List.mem_cons] at hp
      rcases hp with hp | hp
      · exact Or.inr (by simp [hp])
      · rcases ih hp with h | h
        · exact Or.inl h
        · exact Or.inr (List.mem_cons_of_mem _ h)

theorem admitConn_sockets (st : ServerState) (sid u n : String) :
    (admitConn st sid u n).sockets = st.sockets ++ [⟨sid, u, n⟩] := rfl

theorem admitConn_now (st : ServerState) (sid u n : String) :
    (admitConn st sid u n).now = st.now := rfl

theorem admitConn_log (st : ServerState) (sid u n : String) :
    (admitConn st sid u n).log
      = st.log ++ [⟨connectedSids st ++ [sid], "user:status", Payload.status u true st.now⟩] := by
  simp [admitConn, handleConnection, broadcastUserStatus, ioEmit, socketJoin, connectedSids]

theorem admitConn_userSockets (st : ServerState) (sid u n : String) :
    (admitConn st sid u n).userSockets = mapSet st.userSockets u (setAdd (regSet st u) sid) := by
  by_cases h : (mapGet st.userSockets u).isSome
  · obtain ⟨s, hs⟩ := Option.isSome_iff_exists.mp h
    simp [admitConn, handleConnection, broadcastUserStatus, ioEmit, socketJoin, regSet, h, hs]
  · have hn : mapGet st.userSockets u = none := Option.not_isSome_iff_eq_none.mp h
    simp [admitConn, handleConnection, broadcastUserStatus, ioEmit, socketJoin, regSet, h, hn,
      mapGet_mapSet_self, mapSet_mapSet]

theorem admitConn_rooms (st : ServerState) (sid u n : String) :
    (admitConn st sid u n).rooms
      = mapSet st.rooms (Room.user u) (setAdd (roomMembers st (Room.user u)) sid) := by
  simp [admitConn, handleConnection, broadcastUserStatus, ioEmit, socketJoin, roomMembers]

theorem handleDisconnect_rooms (st : ServerState) (sid u : String) :
    (handleDisconnect st sid u).rooms = st.rooms := by
  unfold handleDisconnect
  split
  · rfl
  · simp [broadcastUserStatus, ioEmit, apply_ite ServerState.rooms]

theorem handleDisconnect_sockets (st : ServerState) (sid u : String) :
    (handleDisconnect st sid u).sockets = st.sockets := by
  unfold handleDisconnect
  split
  · rfl
  · simp [broadcastUserStatus, ioEmit, apply_ite ServerState.sockets]

theorem handleDisconnect_now (st : ServerState) (sid u : String) :
    (handleDisconnect st sid u).now = st.now := by
  unfold handleDisconnect
  split
  · rfl
  · simp [broadcastUserStatus, ioEmit, apply_ite ServerState.now]

theorem socketLeave_userSockets (st : ServerState) (sid : String) (r : Room) :
    (socketLeave st sid r).userSockets = st.userSockets := by
  unfold socketLeave
  split
  · rfl
  · simp [apply_ite ServerState.userSockets]

theorem socketLeave_sockets (st : ServerState) (sid : String) (r : Room) :
    (socketLeave st sid r).sockets = st.sockets := by
  unfold socketLeave
  split
  · rfl
  · simp [apply_ite ServerState.sockets]

theorem socketLeave_log (st : ServerState) (sid : String) (r : Room) :
    (socketLeave st sid r).log = st.log := by
  unfold socketLeave
  split
  · rfl
  · simp [apply_ite ServerState.log]

theorem socketLeave_now (st : ServerState) (sid : String) (r : Room) :
    (socketLeave st sid r).now = st.now := by
  unfold socketLeave
  split
  · rfl
  · simp [apply_ite ServerState.now]

theorem typingStartOp_userSockets (st : ServerState) (sid pid : String) :
    (typingStartOp st sid pid).userSockets = st.userSockets := by
  unfold typingStartOp
  split <;> rfl

theorem typingStartOp_rooms (st : ServerState) (sid pid : String) :
    (typingStartOp st sid pid).rooms = st.rooms := by
  unfold typingStartOp
  split <;> rfl

theorem typingStartOp_sockets (st : ServerState) (sid pid : String) :
    (typingStartOp st sid pid).sockets = st.sockets := by
  unfold typingStartOp
  split <;> rfl

theorem typingStopOp_userSockets (st : ServerState) (sid pid : String) :
    (typingStopOp st sid pid).userSockets = st.userSockets := by
  unfold typingStopOp
  split <;> rfl

theorem typingStopOp_rooms (st : ServerState) (sid pid : String) :
    (typingStopOp st sid pid).rooms = st.rooms := by
  unfold typingStopOp
  split <;> rfl

theorem typingStopOp_sockets (st : ServerState) (sid pid : String) :
    (typingStopOp st sid pid).sockets = st.sockets := by
  unfold typingStopOp
  split <;> rfl

theorem postJoinOp_userSockets (st : ServerState) (sid pid : String) :
    (postJoinOp st sid pid).userSockets = st.userSockets := by
  unfold postJoinOp
  split <;> rfl

theorem postJoinOp_sockets (st : ServerState) (sid pid : String) :
    (postJoinOp st sid pid).sockets = st.sockets := by
  unfold postJoinOp
  split <;> rfl

theorem postLeaveOp_userSockets (st : ServerState) (sid pid : String) :
    (postLeaveOp st sid pid).userSockets = st.userSockets := by
  unfold postLeaveOp
  split
  · exact socketLeave_userSockets st sid (Room.post pid)
  · rfl

theorem postLeaveOp_sockets (st : ServerState) (sid pid : String) :
    (postLeaveOp st sid pid).sockets = st.sockets := by
  unfold postLeaveOp
  split
  · exact socketLeave_sockets st sid (Room.post pid)
  · rfl

/-! ## The registry never holds an empty entry -/

theorem handleDisconnect_noEmpty (st : ServerState) (sid u : String)
    (h : ∀ p ∈ st.userSockets, p.2 ≠ []) :
    ∀ p ∈ (handleDisconnect st sid u).userSockets, p.2 ≠ [] := by
  intro p hp
  unfold handleDisconnect at hp
  rcases hm : mapGet st.userSockets u with _ | s
  · rw [hm] at hp
    exact h p hp
  · rw [hm] at hp
    dsimp only at hp
    by_cases he : s.erase sid = []
    · rw [if_pos he] at hp
      simp only [broadcastUserStatus, ioEmit] at hp
      exact h p (mem_mapDelete hp)
    · rw [if_neg he] at hp
      rcases mem_mapSet hp with h1 | h1
      · rw [h1]
        exact he
      · exact h p h1

theorem noEmpty_step (st : ServerState) (op : Op)
    (h : ∀ p ∈ st.userSockets, p.2 ≠ []) :
    ∀ p ∈ (step st op).userSockets, p.2 ≠ [] := by
  cases op with
  | admitConn sid u n =>
    intro p hp
    rw [step, admitConn_userSockets] at hp
    rcases mem_mapSet hp with h1 | h1
    · rw [h1]
      exact setAdd_ne_nil _ _
    · exact h p h1
  | evict sid =>
    rcases hf : findSocket st sid with _ | sock
    · simpa [step, evict, hf] using h
    · intro p hp
      rw [step] at hp
      simp only [evict, hf] at hp
      refine handleDisconnect_noEmpty _ sid sock.userId ?_ p hp
      intro q hq
      exact h q hq
  | joinPost sid pid =>
    simpa [step, postJoinOp_userSockets] using h
  | leavePost sid pid =>
    simpa [step, postLeaveOp_userSockets] using h
  | typingStart sid pid =>
    simpa [step, typingStartOp_userSockets] using h
  | typingStop sid pid =>
    simpa [step, typingStopOp_userSockets] using h
  | notify u n =>
    simpa [step, sendNotificationToUser, ioToEmit] using h
  | message u m =>
    simpa [step, sendMessageToUser, ioToEmit] using h
  | messageRead u c r =>
    simpa [step, sendMessageReadNotification, ioToEmit] using h
  | postUpdate p e d =>
    simpa [step, emitPostUpdate, ioToEmit] using h

theorem noEmpty_run (ops : List Op) :
    ∀ st : ServerState, (∀ p ∈ st.userSockets, p.2 ≠ []) →
      ∀ p ∈ (run st ops).userSockets, p.2 ≠ [] := by
  induction ops with
  | nil => intro st h; exact h
  | cons op rest ih => intro st h; exact ih (step st op) (noEmpty_step st op h)

/-! ## Claim theorems: registry and presence edge behaviour -/

/-- C1 (counterexample): presence is NOT edge-triggered on the online side.
After one admitConn the user is online and one online broadcast was emitted;
admitting a second connection for the same (still online) user emits a second
online broadcast where the claim requires zero additional presence events. -/
theorem online_not_edge_triggered_cex :
    isUserOnline (run initState [Op.admitConn "s1" "u" "ann"]) "u" = true ∧
    (presenceEvents (run initState [Op.admitConn "s1" "u" "ann"]) "u" true).length = 1 ∧
    (presenceEvents (run initState [Op.admitConn "s1" "u" "ann", Op.admitConn "s2" "u" "ann"])
        "u" true).length = 2 := by
  decide

/-- C1 (amended): every admitConn — the user's first connection and every
subsequent one alike — appends exactly one `user:status`/online broadcast for
that user to the log (one per admitConn, not one per offline-to-online edge), and
no offline presence event. -/
theorem admitConn_emits_one_online_event (st : ServerState) (sid u n : String) :
    (admitConn st sid u n).log
      = st.log ++ [⟨connectedSids st ++ [sid], "user:status", Payload.status u true st.now⟩] ∧
    (presenceEvents (admitConn st sid u n) u true).length
      = (presenceEvents st u true).length + 1 ∧
    presenceEvents (admitConn st sid u n) u false = presenceEvents st u false := by
  refine ⟨admitConn_log st sid u n, ?_, ?_⟩
  · simp [presenceEvents, admitConn_log, List.filter_append]
  · simp [presenceEvents, admitConn_log, List.filter_append]

/-- C2: after any finite sequence of operations from the initial state, the
registry holds no entry with an empty connection set, and a user id is a key
of the registry (`isUserOnline`, i.e. `userSockets.has`) iff its connection
set is non-empty. -/
theorem registry_key_iff_nonempty (ops : List Op) (u : String) :
    (∀ p ∈ (run initState ops).userSockets, p.2 ≠ []) ∧
    (isUserOnline (run initState ops) u = true ↔ regSet (run initState ops) u ≠ []) := by
  have hne := noEmpty_run ops initState (by intro p hp; simp [initState] at hp)
  refine ⟨hne, ?_, ?_⟩
  · intro hs
    obtain ⟨s, hs'⟩ := Option.isSome_iff_exists.mp (by simpa [isUserOnline] using hs)
    have := hne _ (mapGet_mem hs')
    simpa [regSet, hs'] using this
  · intro hn
    rw [isUserOnline]
    rcases hm : mapGet (run initState ops).userSockets u with _ | s
    · exact absurd (by simp [regSet, hm]) hn
    · simp

/-- C2 (witness): concrete instance of the key-iff-nonempty equivalence. -/
theorem registry_key_iff_nonempty_witness :
    isUserOnline (run initState [Op.admitConn "s1" "u" "ann"]) "u" = true ↔
      regSet (run initState [Op.admitConn "s1" "u" "ann"]) "u" ≠ [] :=
  (registry_key_iff_nonempty [Op.admitConn "s1" "u" "ann"] "u").2

/-- C5: running the disconnect handler for a connection id that is not
registered under any user (in a registry with no empty entry) changes
nothing: the state — registry, rooms, sockets and emission log — is returned
unchanged, and the handler is a total function, so no error is raised.
Likewise a transport-level disconnect for a socket that is no longer
connected (a duplicate disconnect) is a no-op, so it cannot emit a second
offline event. -/
theorem evict_unknown_silent_noop (st : ServerState) (sid u : String)
    (hno : ∀ p ∈ st.userSockets, sid ∉ p.2)
    (hne : ∀ p ∈ st.userSockets, p.2 ≠ []) :
    handleDisconnect st sid u = st ∧ (findSocket st sid = none → evict st sid = st) := by
  constructor
  · rcases hm : mapGet st.userSockets u with _ | s
    · simp [handleDisconnect, hm]
    · have hpm := mapGet_mem hm
      have h1 : sid ∉ s := hno _ hpm
      have h2 : s ≠ [] := hne _ hpm
      have he : s.erase sid = s := List.erase_of_not_mem h1
      simp [handleDisconnect, hm, he, h2, mapSet_same hm]
  · intro h
    simp [evict, h]

/-- C5 (witness): after the last connection of `"u"` is evicted, a duplicate
disconnect of the same socket id is a complete no-op. -/
theorem evict_unknown_silent_noop_witness :
    handleDisconnect (run initState [Op.admitConn "s1" "u" "ann", Op.evict "s1"]) "s1" "u"
        = run initState [Op.admitConn "s1" "u" "ann", Op.evict "s1"] ∧
    evict (run initState [Op.admitConn "s1" "u" "ann", Op.evict "s1"]) "s1"
        = run initState [Op.admitConn "s1" "u" "ann", Op.evict "s1"] :=
  ⟨(evict_unknown_silent_noop (run initState [Op.admitConn "s1" "u" "ann", Op.evict "s1"])
      "s1" "u" (by decide) (by decide)).1,
   (evict_unknown_silent_noop (run initState [Op.admitConn "s1" "u" "ann", Op.evict "s1"])
      "s1" "u" (by decide) (by decide)).2 (by decide)⟩

/-- C3: presence IS edge-triggered on the offline side.  Evicting a live
connection of a user whose registry set `s` still holds other connections
(`s.erase sid ≠ []`) emits no event at all; evicting the user's last live
connection appends exactly one `user:status`/offline broadcast for that user
and nothing else. -/
theorem evict_offline_edge (st : ServerState) (sid : String) (sock : SocketInfo)
    (s : List String) (hf : findSocket st sid = some sock)
    (hreg : mapGet st.userSockets sock.userId = some s) (_hmem : sid ∈ s) :
    (s.erase sid ≠ [] → (evict st sid).log = st.log) ∧
    (s.erase sid = [] → (evict st sid).log
        = st.log ++ [⟨(st.sockets.filter (fun k => !decide (k.sid = sid))).map SocketInfo.sid,
            "user:status", Payload.status sock.userId false st.now⟩]) := by
  constructor
  · intro he
    simp [evict, hf, handleDisconnect, hreg, he, leaveAllRooms]
  · intro he
    simp [evict, hf, handleDisconnect, hreg, he, leaveAllRooms, broadcastUserStatus,
      ioEmit, connectedSids]

/-- C3 (witness): evicting the single live connection of `"u"` emits exactly
the offline broadcast (resolved, with no sockets left, to zero targets). -/
theorem evict_offline_edge_witness :
    (evict (run initState [Op.admitConn "s1" "u" "ann"]) "s1").log
      = (run initState [Op.admitConn "s1" "u" "ann"]).log
        ++ [⟨((run initState [Op.admitConn "s1" "u" "ann"]).sockets.filter
              (fun k => !decide (k.sid = "s1"))).map SocketInfo.sid,
            "user:status", Payload.status "u" false (run initState [Op.admitConn "s1" "u" "ann"]).now⟩] :=
  (evict_offline_edge (run initState [Op.admitConn "s1" "u" "ann"]) "s1" ⟨"s1", "u", "ann"⟩
      ["s1"] (by decide) (by decide) (by decide)).2 (by decide)

/-- C4: evicting a connected socket removes it from every room (the
Socket.IO leave-all-on-disconnect step runs before the service's disconnect
handler, which never re-adds room members), so after the eviction the socket
id is a member of no room and a subsequent room-targeted `emitPostUpdate`
never resolves to it. -/
theorem evict_not_in_any_room (st : ServerState) (sid : String) (sock : SocketInfo)
    (hf : findSocket st sid = some sock)
    (hnd : ∀ p ∈ st.rooms, p.2.Nodup) :
    (∀ r, sid ∉ roomMembers (evict st sid) r) ∧
    (∀ pid ev d e, (emitPostUpdate (evict st sid) pid ev d).log
        = (evict st sid).log ++ [e] → sid ∉ e.targets) := by
  have hrooms : (evict st sid).rooms = (leaveAllRooms st sid).rooms := by
    simp [evict, hf, handleDisconnect_rooms]
  have hmain : ∀ r, sid ∉ roomMembers (evict st sid) r := by
    intro r hin
    rw [roomMembers, hrooms] at hin
    rcases hm : mapGet (leaveAllRooms st sid).rooms r with _ | mem
    · rw [hm] at hin
      simp at hin
    · rw [hm] at hin
      simp only [Option.getD_some] at hin
      have hent := mapGet_mem hm
      simp only [leaveAllRooms, List.mem_filter, List.mem_map] at hent
      obtain ⟨⟨p, hp, heq⟩, _⟩ := hent
      have hmem2 : mem = p.2.erase sid := by
        have := congrArg Prod.snd heq
        simpa using this.symm
      rw [hmem2] at hin
      exact ((List.Nodup.mem_erase_iff (hnd p hp)).mp hin).1 rfl
  refine ⟨hmain, ?_⟩
  intro pid ev d e hlog
  simp only [emitPostUpdate, ioToEmit] at hlog
  have hsingle : [(⟨roomMembers (evict st sid) (Room.post pid), ev, d⟩ : Emit)] = [e] :=
    List.append_cancel_left hlog
  have he : e = ⟨roomMembers (evict st sid) (Room.post pid), ev, d⟩ :=
    (List.cons_eq_cons.mp hsingle).1.symm
  rw [he]
  exact hmain (Room.post pid)

/-- C4 (witness): a socket joined to two post rooms is, after its eviction, a
member of neither, so a post-room push no longer resolves to it. -/
theorem evict_not_in_any_room_witness :
    "s1" ∉ roomMembers
        (evict (run initState [Op.admitConn "s1" "u" "ann",
          Op.joinPost "s1" "A", Op.joinPost "s1" "B"]) "s1") (Room.post "A") ∧
    "s1" ∉ roomMembers
        (evict (run initState [Op.admitConn "s1" "u" "ann",
          Op.joinPost "s1" "A", Op.joinPost "s1" "B"]) "s1") (Room.post "B") :=
  ⟨(evict_not_in_any_room (run initState [Op.admitConn "s1" "u" "ann",
      Op.joinPost "s1" "A", Op.joinPost "s1" "B"]) "s1" ⟨"s1", "u", "ann"⟩
      (by decide) (by decide)).1 (Room.post "A"),
   (evict_not_in_any_room (run initState [Op.admitConn "s1" "u" "ann",
      Op.joinPost "s1" "A", Op.joinPost "s1" "B"]) "s1" ⟨"s1", "u", "ann"⟩
      (by decide) (by decide)).1 (Room.post "B")⟩

/-- C10: a `typing:start` (resp. `typing:stop`) from a connected socket
pushes one `user:typing` (resp. `user:stop-typing`) event whose resolved
target set is the members of the post room minus the sending socket, and —
when the room's member set is duplicate-free, as the service keeps it — a
socket id is targeted iff it is a member of the room different from the
sender; in particular the typing socket never receives its own event. -/
theorem typing_excludes_sender (st : ServerState) (sid pid : String) (sock : SocketInfo)
    (hf : findSocket st sid = some sock)
    (hnd : ∀ p ∈ st.rooms, p.2.Nodup) :
    (typingStartOp st sid pid).log = st.log ++
      [⟨(roomMembers st (Room.post pid)).erase sid, "user:typing",
        Payload.typing sock.userId sock.username⟩] ∧
    (typingStopOp st sid pid).log = st.log ++
      [⟨(roomMembers st (Room.post pid)).erase sid, "user:stop-typing",
        Payload.stopTyping sock.userId⟩] ∧
    (∀ x, x ∈ (roomMembers st (Room.post pid)).erase sid ↔
      (x ∈ roomMembers st (Room.post pid) ∧ x ≠ sid)) := by
  refine ⟨by simp [typingStartOp, hf, socketToEmit],
    by simp [typingStopOp, hf, socketToEmit], ?_⟩
  intro x
  rcases hm : mapGet st.rooms (Room.post pid) with _ | mem
  · simp [roomMembers, hm]
  · have hnd' : mem.Nodup := hnd _ (mapGet_mem hm)
    rw [roomMembers, hm, Option.getD_some]
    rw [List.Nodup.mem_erase_iff hnd']
    exact and_comm

/-- C10 (witness): with `"s1"` and `"s2"` both in room `post:P`, a typing
start from `"s1"` pushes to `"s2"` only: `"s2"` is targeted, `"s1"` is not. -/
theorem typing_excludes_sender_witness :
    (typingStartOp (run initState [Op.admitConn "s1" "u" "ann", Op.admitConn "s2" "v" "bob",
        Op.joinPost "s1" "P", Op.joinPost "s2" "P"]) "s1" "P").log
      = (run initState [Op.admitConn "s1" "u" "ann", Op.admitConn "s2" "v" "bob",
          Op.joinPost "s1" "P", Op.joinPost "s2" "P"]).log ++
        [⟨(roomMembers (run initState [Op.admitConn "s1" "u" "ann", Op.admitConn "s2" "v" "bob",
            Op.joinPost "s1" "P", Op.joinPost "s2" "P"]) (Room.post "P")).erase "s1",
          "user:typing", Payload.typing "u" "ann"⟩] ∧
    ("s2" ∈ (roomMembers (run initState [Op.admitConn "s1" "u" "ann", Op.admitConn "s2" "v" "bob",
        Op.joinPost "s1" "P", Op.joinPost "s2" "P"]) (Room.post "P")).erase "s1" ↔
      ("s2" ∈ roomMembers (run initState [Op.admitConn "s1" "u" "ann", Op.admitConn "s2" "v" "bob",
          Op.joinPost "s1" "P", Op.joinPost "s2" "P"]) (Room.post "P") ∧ "s2" ≠ "s1")) :=
  ⟨(typing_excludes_sender (run initState [Op.admitConn "s1" "u" "ann", Op.admitConn "s2" "v" "bob",
      Op.joinPost "s1" "P", Op.joinPost "s2" "P"]) "s1" "P" ⟨"s1", "u", "ann"⟩
      (by decide) (by decide)).1,
   (typing_excludes_sender (run initState [Op.admitConn "s1" "u" "ann", Op.admitConn "s2" "v" "bob",
      Op.joinPost "s1" "P", Op.joinPost "s2" "P"]) "s1" "P" ⟨"s1", "u", "ann"⟩
      (by decide) (by decide)).2.2 "s2"⟩

/-- C8 (counterexample): the wire names of the emitted events are
`user:status`, `notification`, `message:new`, `message:read`, `user:typing`,
`user:stop-typing` — in particular the presence broadcast is named
`user:status`, not `presence-changed`, and the new-message push is named
`message:new`, not `message-new`, so the claimed name list is wrong. -/
theorem event_names_cex :
    (run initState [Op.admitConn "s1" "u" "ann"]).log.map Emit.event = ["user:status"] ∧
    (sendMessageToUser (run initState [Op.admitConn "s1" "u" "ann"]) "u"
        (Payload.raw 0)).log.map Emit.event = ["user:status", "message:new"] ∧
    ¬ ("user:status" = "presence-changed") ∧
    ¬ ("message:new" = "message-new") := by
  decide

/-- C8 (amended): the outbound push events carry the wire names
`user:status` (presence), `notification`, `message:new`, `message:read`,
`user:typing` and `user:stop-typing`, and the presence broadcast's payload is
exactly `{userId, isOnline, timestamp}`. -/
theorem emitted_event_names (st : ServerState) (u c r : String) (b : Bool) (pay : Payload)
    (sid pid : String) (sock : SocketInfo) (hf : findSocket st sid = some sock) :
    (broadcastUserStatus st u b).log
      = st.log ++ [⟨connectedSids st, "user:status", Payload.status u b st.now⟩] ∧
    (sendNotificationToUser st u pay).log
      = st.log ++ [⟨roomMembers st (Room.user u), "notification", pay⟩] ∧
    (sendMessageToUser st u pay).log
      = st.log ++ [⟨roomMembers st (Room.user u), "message:new", pay⟩] ∧
    (sendMessageReadNotification st u c r).log
      = st.log ++ [⟨roomMembers st (Room.user u), "message:read", Payload.msgRead c r⟩] ∧
    (typingStartOp st sid pid).log
      = st.log ++ [⟨(roomMembers st (Room.post pid)).erase sid, "user:typing",
          Payload.typing sock.userId sock.username⟩] ∧
    (typingStopOp st sid pid).log
      = st.log ++ [⟨(roomMembers st (Room.post pid)).erase sid, "user:stop-typing",
          Payload.stopTyping sock.userId⟩] := by
  refine ⟨rfl, rfl, rfl, rfl, ?_, ?_⟩
  · simp [typingStartOp, hf, socketToEmit]
  · simp [typingStopOp, hf, socketToEmit]

/-- C8 (witness): the presence broadcast emitted on a live state carries the
`user:status` name and the `{userId, isOnline, timestamp}` payload. -/
theorem emitted_event_names_witness :
    (broadcastUserStatus (run initState [Op.admitConn "s1" "u" "ann"]) "u" true).log
      = (run initState [Op.admitConn "s1" "u" "ann"]).log
        ++ [⟨connectedSids (run initState [Op.admitConn "s1" "u" "ann"]), "user:status",
            Payload.status "u" true (run initState [Op.admitConn "s1" "u" "ann"]).now⟩] :=
  (emitted_event_names (run initState [Op.admitConn "s1" "u" "ann"]) "u" "c" "r" true
      (Payload.raw 0) "s1" "p" ⟨"s1", "u", "ann"⟩ (by decide)).1

/-! ## The reachable-state invariant -/

/-- Invariant of every reachable server state: socket ids are unique;
registry keys are unique, registry sets are duplicate-free and consist of
connected sockets of the right user; each personal room `user:u` holds
exactly the registry set of `u`; room keys are unique and room member sets
duplicate-free. -/
structure SrvInv (st : ServerState) : Prop where
  sockNodup : (st.sockets.map SocketInfo.sid).Nodup
  regKeysNodup : (st.userSockets.map Prod.fst).Nodup
  regValsNodup : ∀ p ∈ st.userSockets, p.2.Nodup
  regSock : ∀ p ∈ st.userSockets, ∀ x ∈ p.2,
    ∃ k ∈ st.sockets, k.sid = x ∧ k.userId = p.1
  userRoom : ∀ u, roomMembers st (Room.user u) = regSet st u
  roomKeysNodup : (st.rooms.map Prod.fst).Nodup
  roomValsNodup : ∀ p ∈ st.rooms, p.2.Nodup

/-- The per-step transport validity condition checked by `validFrom`. -/
def opValid (st : ServerState) : Op → Prop
  | Op.admitConn sid _ _ => sid ∉ connectedSids st
  | _ => True

theorem validFrom_cons (st : ServerState) (op : Op) (ops : List Op) :
    validFrom st (op :: ops) = true ↔ opValid st op ∧ validFrom (step st op) ops = true := by
  cases op <;> simp [validFrom, opValid]

theorem inv_init : SrvInv initState := by
  constructor <;> simp [initState, roomMembers, regSet, mapGet]

theorem regSet_nodup {st : ServerState} (h : SrvInv st) (u : String) : (regSet st u).Nodup := by
  rcases hm : mapGet st.userSockets u with _ | s
  · simp [regSet, hm]
  · have := h.regValsNodup _ (mapGet_mem hm)
    simpa [regSet, hm] using this

theorem roomMembers_nodup {st : ServerState} (h : SrvInv st) (r : Room) :
    (roomMembers st r).Nodup := by
  rcases hm : mapGet st.rooms r with _ | mem
  · simp [roomMembers, hm]
  · have := h.roomValsNodup _ (mapGet_mem hm)
    simpa [roomMembers, hm] using this

theorem regSet_sock {st : ServerState} (h : SrvInv st) {u x : String} (hx : x ∈ regSet st u) :
    ∃ k ∈ st.sockets, k.sid = x ∧ k.userId = u := by
  rcases hm : mapGet st.userSockets u with _ | s
  · simp [regSet, hm] at hx
  · rw [regSet, hm, Option.getD_some] at hx
    exact h.regSock _ (mapGet_mem hm) x hx

theorem fresh_not_in_regSet {st : ServerState} (h : SrvInv st) {sid : String}
    (hfresh : sid ∉ connectedSids st) (u : String) : sid ∉ regSet st u := by
  intro hx
  obtain ⟨k, hk, hsid, _⟩ := regSet_sock h hx
  exact hfresh (by rw [← hsid]; exact List.mem_map_of_mem _ hk)

theorem findSocket_eq_none_iff (st : ServerState) (sid : String) :
    findSocket st sid = none ↔ sid ∉ connectedSids st := by
  rw [findSocket, List.find?_eq_none]
  constructor
  · intro h hmem
    rw [connectedSids] at hmem
    obtain ⟨k, hk, hks⟩ := List.mem_map.mp hmem
    exact h k hk (by simp [hks])
  · intro h k hk hdec
    have : k.sid = sid := of_decide_eq_true hdec
    exact h (by rw [← this, connectedSids]; exact List.mem_map_of_mem _ hk)

theorem findSocket_spec {st : ServerState} {sid : String} {sock : SocketInfo}
    (hf : findSocket st sid = some sock) : sock ∈ st.sockets ∧ sock.sid = sid := by
  refine ⟨List.mem_of_find?_eq_some hf, ?_⟩
  have := List.find?_some hf
  exact of_decide_eq_true this

theorem sid_unique {st : ServerState} (h : SrvInv st) {sid : String} {sock : SocketInfo}
    (hf : findSocket st sid = some sock) {p : String × List String}
    (hp : p ∈ st.userSockets) (hx : sid ∈ p.2) : p.1 = sock.userId := by
  obtain ⟨k, hk, hksid, hkuid⟩ := h.regSock p hp sid hx
  obtain ⟨hsmem, hssid⟩ := findSocket_spec hf
  have : k = sock :=
    List.inj_on_of_nodup_map h.sockNodup hk hsmem (by rw [hksid, hssid])
  rw [← hkuid, this]

theorem not_in_regSet_of_ne_user {st : ServerState} (h : SrvInv st) {sid : String}
    {sock : SocketInfo} (hf : findSocket st sid = some sock) {u : String}
    (hu : u ≠ sock.userId) : sid ∉ regSet st u := by
  intro hx
  rcases hm : mapGet st.userSockets u with _ | s
  · simp [regSet, hm] at hx
  · rw [regSet, hm, Option.getD_some] at hx
    exact hu (sid_unique h hf (mapGet_mem hm) hx)

theorem inv_of_log {st : ServerState} (h : SrvInv st) (l : List Emit) :
    SrvInv { st with log := l } :=
  ⟨h.sockNodup, h.regKeysNodup, h.regValsNodup, h.regSock, h.userRoom,
   h.roomKeysNodup, h.roomValsNodup⟩

/-! ## Invariant preservation -/

theorem srvInv_admit {st : ServerState} (h : SrvInv st) {sid : String} (u n : String)
    (hfresh : sid ∉ connectedSids st) : SrvInv (admitConn st sid u n) := by
  have hreg := admitConn_userSockets st sid u n
  have hrooms := admitConn_rooms st sid u n
  have hsock := admitConn_sockets st sid u n
  refine ⟨?_, ?_, ?_, ?_, ?_, ?_, ?_⟩
  · rw [hsock, List.map_append]
    simp only [List.map_cons, List.map_nil]
    rw [List.nodup_append]
    refine ⟨h.sockNodup, List.nodup_singleton _, ?_⟩
    intro a ha hb
    simp only [List.mem_singleton] at hb
    subst hb
    exact hfresh ha
  · rw [hreg]
    by_cases hk : (mapGet st.userSockets u).isSome
    · rw [keys_mapSet_mem _ _ _ ((mapGet_isSome_iff _ _).mp hk)]
      exact h.regKeysNodup
    · rw [keys_mapSet_not_mem _ _ _ (fun hmem => hk ((mapGet_isSome_iff _ _).mpr hmem))]
      rw [List.nodup_append]
      refine ⟨h.regKeysNodup, List.nodup_singleton _, ?_⟩
      intro a ha hb
      simp only [List.mem_singleton] at hb
      subst hb
      exact hk ((mapGet_isSome_iff _ _).mpr ha)
  · intro p hp
    rw [hreg] at hp
    rcases mem_mapSet hp with h1 | h1
    · rw [h1]
      exact setAdd_nodup (regSet_nodup h u) sid
    · exact h.regValsNodup p h1
  · intro p hp x hx
    rw [hreg] at hp
    rw [hsock]
    rcases mem_mapSet hp with h1 | h1
    · rw [h1] at hx
      rcases (mem_setAdd _ _ _).mp hx with h2 | h2
      · obtain ⟨k, hk, hks, hku⟩ := regSet_sock h h2
        exact ⟨k, List.mem_append_left _ hk, hks, by rw [h1, hku]⟩
      · subst h2
        refine ⟨⟨x, u, n⟩, List.mem_append_right _ (by simp), rfl, by rw [h1]⟩
    · obtain ⟨k, hk, hks, hku⟩ := h.regSock p h1 x hx
      exact ⟨k, List.mem_append_left _ hk, hks, hku⟩
  · intro v
    simp only [roomMembers, regSet]
    rw [hrooms, hreg]
    by_cases hv : v = u
    · subst hv
      rw [mapGet_mapSet_self, mapGet_mapSet_self]
      simp only [Option.getD_some]
      rw [h.userRoom v]
    · have hru : Room.user v ≠ Room.user u := by simp [hv]
      rw [mapGet_mapSet_ne _ _ _ _ hru, mapGet_mapSet_ne _ _ _ _ hv]
      have := h.userRoom v
      simp only [roomMembers, regSet] at this
      exact this
  · rw [hrooms]
    by_cases hk : (mapGet st.rooms (Room.user u)).isSome
    · rw [keys_mapSet_mem _ _ _ ((mapGet_isSome_iff _ _).mp hk)]
      exact h.roomKeysNodup
    · rw [keys_mapSet_not_mem _ _ _ (fun hmem => hk ((mapGet_isSome_iff _ _).mpr hmem))]
      rw [List.nodup_append]
      refine ⟨h.roomKeysNodup, List.nodup_singleton _, ?_⟩
      intro a ha hb
      simp only [List.mem_singleton] at hb
      subst hb
      exact hk ((mapGet_isSome_iff _ _).mpr ha)
  · intro p hp
    rw [hrooms] at hp
    rcases mem_mapSet hp with h1 | h1
    · rw [h1]
      exact setAdd_nodup (roomMembers_nodup h _) sid
    · exact h.roomValsNodup p h1

theorem srvInv_socketJoin_post {st : ServerState} (h : SrvInv st) (sid pid : String) :
    SrvInv (socketJoin st sid (Room.post pid)) := by
  refine ⟨h.sockNodup, h.regKeysNodup, h.regValsNodup, h.regSock, ?_, ?_, ?_⟩
  · intro v
    simp only [roomMembers, regSet, socketJoin]
    rw [mapGet_mapSet_ne _ _ _ _ (by simp : Room.user v ≠ Room.post pid)]
    have := h.userRoom v
    simp only [roomMembers, regSet] at this
    exact this
  · simp only [socketJoin]
    by_cases hk : (mapGet st.rooms (Room.post pid)).isSome
    · rw [keys_mapSet_mem _ _ _ ((mapGet_isSome_iff _ _).mp hk)]
      exact h.roomKeysNodup
    · rw [keys_mapSet_not_mem _ _ _ (fun hmem => hk ((mapGet_isSome_iff _ _).mpr hmem))]
      rw [List.nodup_append]
      refine ⟨h.roomKeysNodup, List.nodup_singleton _, ?_⟩
      intro a ha hb
      simp only [List.mem_singleton] at hb
      subst hb
      exact hk ((mapGet_isSome_iff _ _).mpr ha)
  · intro p hp
    simp only [socketJoin] at hp
    rcases mem_mapSet hp with h1 | h1
    · rw [h1]
      exact setAdd_nodup (roomMembers_nodup h _) sid
    · exact h.roomValsNodup p h1

theorem srvInv_postJoin {st : ServerState} (h : SrvInv st) (sid pid : String) :
    SrvInv (postJoinOp st sid pid) := by
  unfold postJoinOp
  split
  · exact srvInv_socketJoin_post h sid pid
  · exact h

theorem srvInv_socketLeave_post {st : ServerState} (h : SrvInv st) (sid pid : String) :
    SrvInv (socketLeave st sid (Room.post pid)) := by
  unfold socketLeave
  rcases hm : mapGet st.rooms (Room.post pid) with _ | mem
  · exact h
  · dsimp only
    by_cases he : mem.erase sid = []
    · rw [if_pos he]
      refine ⟨h.sockNodup, h.regKeysNodup, h.regValsNodup, h.regSock, ?_, ?_, ?_⟩
      · intro v
        simp only [roomMembers, regSet]
        rw [mapGet_mapDelete_ne _ _ _ (by simp : Room.user v ≠ Room.post pid)]
        have := h.userRoom v
        simp only [roomMembers, regSet] at this
        exact this
      · exact List.Nodup.sublist (keys_mapDelete_sublist _ _) h.roomKeysNodup
      · intro p hp
        exact h.roomValsNodup p (mem_mapDelete hp)
    · rw [if_neg he]
      refine ⟨h.sockNodup, h.regKeysNodup, h.regValsNodup, h.regSock, ?_, ?_, ?_⟩
      · intro v
        simp only [roomMembers, regSet]
        rw [mapGet_mapSet_ne _ _ _ _ (by simp : Room.user v ≠ Room.post pid)]
        have := h.userRoom v
        simp only [roomMembers, regSet] at this
        exact this
      · rw [keys_mapSet_mem _ _ _ ((mapGet_isSome_iff _ _).mp (by simp [hm]))]
        exact h.roomKeysNodup
      · intro p hp
        rcases mem_mapSet hp with h1 | h1
        · rw [h1]
          exact List.Nodup.erase sid (h.roomValsNodup _ (mapGet_mem hm))
        · exact h.roomValsNodup p h1

theorem srvInv_postLeave {st : ServerState} (h : SrvInv st) (sid pid : String) :
    SrvInv (postLeaveOp st sid pid) := by
  unfold postLeaveOp
  split
  · exact srvInv_socketLeave_post h sid pid
  · exact h

theorem srvInv_typingStart {st : ServerState} (h : SrvInv st) (sid pid : String) :
    SrvInv (typingStartOp st sid pid) := by
  unfold typingStartOp
  split
  · exact h
  · exact inv_of_log h _

theorem srvInv_typingStop {st : ServerState} (h : SrvInv st) (sid pid : String) :
    SrvInv (typingStopOp st sid pid) := by
  unfold typingStopOp
  split
  · exact h
  · exact inv_of_log h _

theorem keys_eraseFilter_sublist (sid : String) (m : List (Room × List String)) :
    ((((m.map (fun p => (p.1, p.2.erase sid))).filter (fun p => !p.2.isEmpty)).map
        Prod.fst)).Sublist (m.map Prod.fst) := by
  have h1 : (((m.map (fun p => (p.1, p.2.erase sid))).filter (fun p => !p.2.isEmpty)).map
      Prod.fst).Sublist ((m.map (fun p => (p.1, p.2.erase sid))).map Prod.fst) :=
    (List.filter_sublist _).map _
  simpa [List.map_map, Function.comp] using h1

theorem mapGet_eraseFilter (sid : String) (m : List (Room × List String))
    (hk : (m.map Prod.fst).Nodup) (r : Room) :
    (mapGet ((m.map (fun p => (p.1, p.2.erase sid))).filter (fun p => !p.2.isEmpty)) r).getD []
      = ((mapGet m r).getD []).erase sid := by
  induction m with
  | nil => simp [mapGet]
  | cons p rest ih =>
    obtain ⟨k0, v0⟩ := p
    simp only [List.map_cons, List.nodup_cons] at hk
    by_cases h0 : k0 = r
    · subst h0
      by_cases he : (v0.erase sid).isEmpty
      · have hkeys : k0 ∉ (((rest.map (fun p => (p.1, p.2.erase sid))).filter
            (fun p => !p.2.isEmpty)).map Prod.fst) :=
          fun hmem => hk.1 ((keys_eraseFilter_sublist sid rest).subset hmem)
        have hnil : v0.erase sid = [] := by simpa [List.isEmpty_iff] using he
        simp [List.filter_cons, he, mapGet, hnil, mapGet_eq_none_of_not_mem_keys hkeys]
      · simp [List.filter_cons, he, mapGet]
    · by_cases he : (v0.erase sid).isEmpty
      · simp [List.filter_cons, he, mapGet, h0, ih hk.2]
      · simp [List.filter_cons, he, mapGet, h0, ih hk.2]

theorem roomMembers_leaveAllRooms {st : ServerState} (hk : (st.rooms.map Prod.fst).Nodup)
    (sid : String) (r : Room) :
    roomMembers (leaveAllRooms st sid) r = (roomMembers st r).erase sid := by
  simp only [roomMembers, leaveAllRooms]
  exact mapGet_eraseFilter sid st.rooms hk r

theorem evict_rooms_eq {st : ServerState} {sid : String} {sock : SocketInfo}
    (hf : findSocket st sid = some sock) :
    (evict st sid).rooms
      = (st.rooms.map (fun p => (p.1, p.2.erase sid))).filter (fun p => !p.2.isEmpty) := by
  simp [evict, hf, handleDisconnect_rooms, leaveAllRooms]

theorem evict_sockets_eq {st : ServerState} {sid : String} {sock : SocketInfo}
    (hf : findSocket st sid = some sock) :
    (evict st sid).sockets = st.sockets.filter (fun k => !decide (k.sid = sid)) := by
  simp [evict, hf, handleDisconnect_sockets, leaveAllRooms]

theorem evict_userSockets_none {st : ServerState} {sid : String} {sock : SocketInfo}
    (hf : findSocket st sid = some sock)
    (hm : mapGet st.userSockets sock.userId = none) :
    (evict st sid).userSockets = st.userSockets := by
  simp [evict, hf, handleDisconnect, hm, leaveAllRooms]

theorem evict_userSockets_last {st : ServerState} {sid : String} {sock : SocketInfo}
    {s : List String} (hf : findSocket st sid = some sock)
    (hm : mapGet st.userSockets sock.userId = some s) (he : s.erase sid = []) :
    (evict st sid).userSockets = mapDelete st.userSockets sock.userId := by
  simp [evict, hf, handleDisconnect, hm, he, leaveAllRooms, broadcastUserStatus, ioEmit]

theorem evict_userSockets_other {st : ServerState} {sid : String} {sock : SocketInfo}
    {s : List String} (hf : findSocket st sid = some sock)
    (hm : mapGet st.userSockets sock.userId = some s) (he : ¬ s.erase sid = []) :
    (evict st sid).userSockets = mapSet st.userSockets sock.userId (s.erase sid) := by
  simp [evict, hf, handleDisconnect, hm, he, leaveAllRooms]

theorem srvInv_evict {st : ServerState} (h : SrvInv st) (sid : String) :
    SrvInv (evict st sid) := by
  rcases hf : findSocket st sid with _ | sock
  · rw [show evict st sid = st from by simp [evict, hf]]
    exact h
  · have hrooms := evict_rooms_eq hf
    have hsockets := evict_sockets_eq hf
    have hsockNodup : ((evict st sid).sockets.map SocketInfo.sid).Nodup := by
      rw [hsockets]
      exact List.Nodup.sublist ((List.filter_sublist _).map _) h.sockNodup
    have hroomKeys : ((evict st sid).rooms.map Prod.fst).Nodup := by
      rw [hrooms]
      exact List.Nodup.sublist (keys_eraseFilter_sublist sid st.rooms) h.roomKeysNodup
    have hroomVals : ∀ p ∈ (evict st sid).rooms, p.2.Nodup := by
      intro p hp
      rw [hrooms] at hp
      obtain ⟨hmem, _⟩ := List.mem_filter.mp hp
      obtain ⟨q, hq, hqe⟩ := List.mem_map.mp hmem
      rw [← hqe]
      exact List.Nodup.erase sid (h.roomValsNodup q hq)
    have hrm : ∀ r, roomMembers (evict st sid) r = (roomMembers st r).erase sid := by
      intro r
      simp only [roomMembers]
      rw [hrooms]
      exact mapGet_eraseFilter sid st.rooms h.roomKeysNodup r
    have hsurv : ∀ (k : SocketInfo), k ∈ st.sockets → k.sid ≠ sid →
        k ∈ (evict st sid).sockets := by
      intro k hk hne
      rw [hsockets]
      exact List.mem_filter.mpr ⟨hk, by simp [hne]⟩
    rcases hm : mapGet st.userSockets sock.userId with _ | s
    · have hus := evict_userSockets_none hf hm
      refine ⟨hsockNodup, ?_, ?_, ?_, ?_, hroomKeys, hroomVals⟩
      · rw [hus]; exact h.regKeysNodup
      · rw [hus]; exact h.regValsNodup
      · intro p hp x hx
        rw [hus] at hp
        have hxne : x ≠ sid := by
          intro hxe
          subst hxe
          have hpu : p.1 = sock.userId := sid_unique h hf hp hx
          have hsome : (mapGet st.userSockets sock.userId).isSome = true :=
            (mapGet_isSome_iff _ _).mpr (by rw [← hpu]; exact List.mem_map_of_mem _ hp)
          simp [hm] at hsome
        obtain ⟨k, hk, hks, hku⟩ := h.regSock p hp x hx
        exact ⟨k, hsurv k hk (by rw [hks]; exact hxne), hks, hku⟩
      · intro v
        rw [hrm (Room.user v), h.userRoom v]
        have hregv : regSet (evict st sid) v = regSet st v := by
          simp only [regSet]
          rw [hus]
        rw [hregv]
        by_cases hv : v = sock.userId
        · subst hv
          simp [regSet, hm]
        · exact List.erase_of_not_mem (not_in_regSet_of_ne_user h hf hv)
    · by_cases he : s.erase sid = []
      · have hus := evict_userSockets_last hf hm he
        refine ⟨hsockNodup, ?_, ?_, ?_, ?_, hroomKeys, hroomVals⟩
        · rw [hus]
          exact List.Nodup.sublist (keys_mapDelete_sublist _ _) h.regKeysNodup
        · intro p hp
          rw [hus] at hp
          exact h.regValsNodup p (mem_mapDelete hp)
        · intro p hp x hx
          rw [hus] at hp
          obtain ⟨hpm, hpne⟩ := mem_mapDelete_strong h.regKeysNodup hp
          have hxne : x ≠ sid := by
            intro hxe
            subst hxe
            exact hpne (sid_unique h hf hpm hx)
          obtain ⟨k, hk, hks, hku⟩ := h.regSock p hpm x hx
          exact ⟨k, hsurv k hk (by rw [hks]; exact hxne), hks, hku⟩
        · intro v
          rw [hrm (Room.user v), h.userRoom v]
          by_cases hv : v = sock.userId
          · subst hv
            have hz : regSet (evict st sid) sock.userId = [] := by
              simp only [regSet]
              rw [hus, mapGet_mapDelete_self h.regKeysNodup]
              rfl
            rw [hz]
            simp [regSet, hm, he]
          · have hz : regSet (evict st sid) v = regSet st v := by
              simp only [regSet]
              rw [hus, mapGet_mapDelete_ne _ _ _ hv]
            rw [hz]
            exact List.erase_of_not_mem (not_in_regSet_of_ne_user h hf hv)
      · have hus := evict_userSockets_other hf hm he
        refine ⟨hsockNodup, ?_, ?_, ?_, ?_, hroomKeys, hroomVals⟩
        · rw [hus]
          rw [keys_mapSet_mem _ _ _ ((mapGet_isSome_iff _ _).mp (by simp [hm]))]
          exact h.regKeysNodup
        · intro p hp
          rw [hus] at hp
          rcases mem_mapSet hp with h1 | h1
          · rw [h1]
            exact List.Nodup.erase sid (h.regValsNodup _ (mapGet_mem hm))
          · exact h.regValsNodup p h1
        · intro p hp x hx
          rw [hus] at hp
          rcases mem_mapSet_strong h.regKeysNodup hp with h1 | h1
          · have hxs : x ∈ s.erase sid := by rw [h1] at hx; exact hx
            have hnd : s.Nodup := h.regValsNodup _ (mapGet_mem hm)
            have hxe := (List.Nodup.mem_erase_iff hnd).mp hxs
            obtain ⟨k, hk, hks, hku⟩ := h.regSock _ (mapGet_mem hm) x hxe.2
            refine ⟨k, hsurv k hk (by rw [hks]; exact hxe.1), hks, ?_⟩
            rw [h1]
            simpa using hku
          · obtain ⟨hpm, hpne⟩ := h1
            have hxne : x ≠ sid := by
              intro hxe
              subst hxe
              exact hpne (sid_unique h hf hpm hx)
            obtain ⟨k, hk, hks, hku⟩ := h.regSock p hpm x hx
            exact ⟨k, hsurv k hk (by rw [hks]; exact hxne), hks, hku⟩
        · intro v
          rw [hrm (Room.user v), h.userRoom v]
          by_cases hv : v = sock.userId
          · subst hv
            have hz : regSet (evict st sid) sock.userId = s.erase sid := by
              simp only [regSet]
              rw [hus, mapGet_mapSet_self]
              rfl
            rw [hz]
            simp [regSet, hm]
          · have hz : regSet (evict st sid) v = regSet st v := by
              simp only [regSet]
              rw [hus, mapGet_mapSet_ne _ _ _ _ hv]
            rw [hz]
            exact List.erase_of_not_mem (not_in_regSet_of_ne_user h hf hv)

theorem srvInv_step {st : ServerState} (h : SrvInv st) {op : Op} (hv : opValid st op) :
    SrvInv (step st op) := by
  cases op with
  | admitConn sid u n => exact srvInv_admit h u n hv
  | evict sid => exact srvInv_evict h sid
  | joinPost sid pid => exact srvInv_postJoin h sid pid
  | leavePost sid pid => exact srvInv_postLeave h sid pid
  | typingStart sid pid => exact srvInv_typingStart h sid pid
  | typingStop sid pid => exact srvInv_typingStop h sid pid
  | notify u n => exact inv_of_log h _
  | message u m => exact inv_of_log h _
  | messageRead u c r => exact inv_of_log h _
  | postUpdate p e d => exact inv_of_log h _

theorem srvInv_run (ops : List Op) :
    ∀ st : ServerState, SrvInv st → validFrom st ops = true → SrvInv (run st ops) := by
  induction ops with
  | nil => intro st h _; exact h
  | cons op rest ih =>
    intro st h hv
    obtain ⟨hop, hv'⟩ := (validFrom_cons st op rest).mp hv
    exact ih (step st op) (srvInv_step h hop) hv'

/-! ## The registry tracks admits minus evicts -/

theorem regSet_admit (st : ServerState) (sid u n v : String) :
    regSet (admitConn st sid u n) v
      = if v = u then setAdd (regSet st u) sid else regSet st v := by
  simp only [regSet]
  rw [admitConn_userSockets]
  by_cases hv : v = u
  · rw [if_pos hv, hv, mapGet_mapSet_self, Option.getD_some]
    rfl
  · rw [if_neg hv, mapGet_mapSet_ne _ _ _ _ hv]

theorem regSet_evict {st : ServerState} (h : SrvInv st) (sid u : String) :
    regSet (evict st sid) u = (regSet st u).erase sid := by
  rcases hf : findSocket st sid with _ | sock
  · rw [show evict st sid = st from by simp [evict, hf]]
    rw [List.erase_of_not_mem
      (fresh_not_in_regSet h ((findSocket_eq_none_iff st sid).mp hf) u)]
  · by_cases hv : u = sock.userId
    · subst hv
      rcases hm : mapGet st.userSockets sock.userId with _ | s
      · simp only [regSet]
        rw [evict_userSockets_none hf hm]
        simp [hm]
      · by_cases he : s.erase sid = []
        · simp only [regSet]
          rw [evict_userSockets_last hf hm he, mapGet_mapDelete_self h.regKeysNodup]
          simp [hm, he]
        · simp only [regSet]
          rw [evict_userSockets_other hf hm he, mapGet_mapSet_self]
          simp [hm]
    · rw [List.erase_of_not_mem (not_in_regSet_of_ne_user h hf hv)]
      rcases hm : mapGet st.userSockets sock.userId with _ | s
      · simp only [regSet]
        rw [evict_userSockets_none hf hm]
      · by_cases he : s.erase sid = []
        · simp only [regSet]
          rw [evict_userSockets_last hf hm he, mapGet_mapDelete_ne _ _ _ hv]
        · simp only [regSet]
          rw [evict_userSockets_other hf hm he, mapGet_mapSet_ne _ _ _ _ hv]

theorem regSet_run_live (ops : List Op) :
    ∀ st : ServerState, SrvInv st → validFrom st ops = true → ∀ u : String,
      regSet (run st ops) u = liveConnsOf u ops (regSet st u) := by
  induction ops with
  | nil => intro st _ _ u; rfl
  | cons op rest ih =>
    intro st hinv hv u
    obtain ⟨hop, hv'⟩ := (validFrom_cons st op rest).mp hv
    have hrec := ih (step st op) (srvInv_step hinv hop) hv' u
    have hrun : run st (op :: rest) = run (step st op) rest := rfl
    rw [hrun, hrec]
    cases op with
    | admitConn sid u' n =>
      simp only [liveConnsOf]
      congr 1
      rw [show step st (Op.admitConn sid u' n) = admitConn st sid u' n from rfl, regSet_admit]
      by_cases hu : u' = u
      · rw [if_pos (hu.symm), if_pos hu, hu]
        rw [setAdd, if_neg (fresh_not_in_regSet hinv hop u)]
      · rw [if_neg (fun hh => hu hh.symm), if_neg hu]
    | evict sid =>
      simp only [liveConnsOf]
      congr 1
      exact regSet_evict hinv sid u
    | joinPost sid pid =>
      simp only [liveConnsOf]
      congr 1
      simp only [regSet, step, postJoinOp_userSockets]
    | leavePost sid pid =>
      simp only [liveConnsOf]
      congr 1
      simp only [regSet, step, postLeaveOp_userSockets]
    | typingStart sid pid =>
      simp only [liveConnsOf]
      congr 1
      simp only [regSet, step, typingStartOp_userSockets]
    | typingStop sid pid =>
      simp only [liveConnsOf]
      congr 1
      simp only [regSet, step, typingStopOp_userSockets]
    | notify v n => rfl
    | message v m => rfl
    | messageRead v c r => rfl
    | postUpdate p e d => rfl

theorem isUserOnline_iff_regSet_ne {st : ServerState}
    (hne : ∀ p ∈ st.userSockets, p.2 ≠ []) (u : String) :
    isUserOnline st u = true ↔ regSet st u ≠ [] := by
  constructor
  · intro hs
    obtain ⟨s, hs'⟩ := Option.isSome_iff_exists.mp (by simpa [isUserOnline] using hs)
    have := hne _ (mapGet_mem hs')
    simpa [regSet, hs'] using this
  · intro hn
    rw [isUserOnline]
    rcases hm : mapGet st.userSockets u with _ | s
    · exact absurd (by simp [regSet, hm]) hn
    · simp

/-! ## Claim theorems: presence derivation and user-room routing -/

/-- C7: presence is purely derived from registry occupancy — over every
transport-valid operation sequence from the initial state, `isUserOnline u`
holds exactly when the number of connection ids admitted for `u` and not
since evicted is positive. -/
theorem isUserOnline_iff_live_count (ops : List Op) (u : String)
    (hv : validFrom initState ops = true) :
    isUserOnline (run initState ops) u = true ↔ 0 < (liveConnsOf u ops []).length := by
  have hne := noEmpty_run ops initState (by intro p hp; simp [initState] at hp)
  have hlive := regSet_run_live ops initState inv_init hv u
  have hacc : regSet initState u = [] := rfl
  rw [hacc] at hlive
  rw [isUserOnline_iff_regSet_ne hne u, hlive, List.length_pos]

/-- C7 (witness): after two admits and one evict for `"u"`, one connection
is live and `isUserOnline` agrees. -/
theorem isUserOnline_iff_live_count_witness :
    isUserOnline (run initState [Op.admitConn "s1" "u" "ann", Op.admitConn "s2" "u" "ann",
        Op.evict "s1"]) "u" = true ↔
      0 < (liveConnsOf "u" [Op.admitConn "s1" "u" "ann", Op.admitConn "s2" "u" "ann",
        Op.evict "s1"] []).length :=
  isUserOnline_iff_live_count
    [Op.admitConn "s1" "u" "ann", Op.admitConn "s2" "u" "ann", Op.evict "s1"] "u" (by decide)

/-- C9: over every transport-valid operation sequence, the personal room
`user:u` holds exactly the connections admitted for `u` and not yet evicted,
and each user-targeted delivery (`notification`, `message:new`,
`message:read`) resolves to exactly that set of connections. -/
theorem user_room_is_live_set (ops : List Op) (u : String)
    (hv : validFrom initState ops = true) :
    roomMembers (run initState ops) (Room.user u) = liveConnsOf u ops [] ∧
    (∀ pay, (sendNotificationToUser (run initState ops) u pay).log
        = (run initState ops).log ++ [⟨liveConnsOf u ops [], "notification", pay⟩]) ∧
    (∀ pay, (sendMessageToUser (run initState ops) u pay).log
        = (run initState ops).log ++ [⟨liveConnsOf u ops [], "message:new", pay⟩]) ∧
    (∀ c r, (sendMessageReadNotification (run initState ops) u c r).log
        = (run initState ops).log
          ++ [⟨liveConnsOf u ops [], "message:read", Payload.msgRead c r⟩]) := by
  have hinv := srvInv_run ops initState inv_init hv
  have hlive := regSet_run_live ops initState inv_init hv u
  have hacc : regSet initState u = [] := rfl
  rw [hacc] at hlive
  have hroom : roomMembers (run initState ops) (Room.user u) = liveConnsOf u ops [] := by
    rw [hinv.userRoom u, hlive]
  refine ⟨hroom, ?_, ?_, ?_⟩
  · intro pay
    simp [sendNotificationToUser, ioToEmit, hroom]
  · intro pay
    simp [sendMessageToUser, ioToEmit, hroom]
  · intro c r
    simp [sendMessageReadNotification, ioToEmit, hroom]

/-- C9 (witness): with `"s1"` evicted and `"s2"` still live for `"u"`, the
room `user:u` holds exactly `["s2"]`, the live connection set. -/
theorem user_room_is_live_set_witness :
    roomMembers (run initState [Op.admitConn "s1" "u" "ann", Op.admitConn "s2" "u" "ann",
        Op.evict "s1"]) (Room.user "u")
      = liveConnsOf "u" [Op.admitConn "s1" "u" "ann", Op.admitConn "s2" "u" "ann",
          Op.evict "s1"] [] :=
  (user_room_is_live_set
    [Op.admitConn "s1" "u" "ann", Op.admitConn "s2" "u" "ann", Op.evict "s1"] "u" (by decide)).1

/-- C6: delivering a notification to a user with no live connection (in any
reachable state) is a silent no-op: the call is total (no error), the
emission resolves to zero target connections, and the state — registry,
rooms, connected sockets — is unchanged except for the appended zero-target
log entry. -/
theorem deliver_offline_silent_noop (ops : List Op) (u : String) (pay : Payload)
    (hv : validFrom initState ops = true)
    (hoff : isUserOnline (run initState ops) u = false) :
    sendNotificationToUser (run initState ops) u pay
      = { run initState ops with
          log := (run initState ops).log ++ [⟨[], "notification", pay⟩] } := by
  have hinv := srvInv_run ops initState inv_init hv
  have hm : mapGet (run initState ops).userSockets u = none := by
    rcases hm : mapGet (run initState ops).userSockets u with _ | s
    · rfl
    · rw [isUserOnline] at hoff
      simp [hm] at hoff
  have hroom : roomMembers (run initState ops) (Room.user u) = [] := by
    rw [hinv.userRoom u, regSet, hm]
    rfl
  simp [sendNotificationToUser, ioToEmit, hroom]

/-- C6 (witness): notifying `"u"` after its last connection was evicted
appends one zero-target `notification` entry and changes nothing else. -/
theorem deliver_offline_silent_noop_witness :
    sendNotificationToUser (run initState [Op.admitConn "s1" "u" "ann", Op.evict "s1"])
        "u" (Payload.raw 7)
      = { run initState [Op.admitConn "s1" "u" "ann", Op.evict "s1"] with
          log := (run initState [Op.admitConn "s1" "u" "ann", Op.evict "s1"]).log
            ++ [⟨[], "notification", Payload.raw 7⟩] } :=
  deliver_offline_silent_noop [Op.admitConn "s1" "u" "ann", Op.evict "s1"] "u"
    (Payload.raw 7) (by decide) (by decide)
